import Mathlib

/-!
Shallow embedding of the BanglaOcr application core (src/App.tsx and the
Page / PageStatus declarations) and verification of its specification.

The React component state is modelled by `AppState`; the external OCR
service (`extractTextFromImage`) is modelled by an oracle of type `Ocr`
mapping a page to either extracted text (`Except.ok`) or an error message
(`Except.error`).  PDF decoding is modelled by an oracle value passed to
`handlePdfFile`.  Asynchronous batch processing is serialised: each
per-page task performs its two state updates in dispatch order; since all
updates are keyed by page id, this is observationally equivalent to any
interleaving when page ids are distinct (as `crypto.randomUUID` ensures).
-/

namespace BanglaOcr

/-- `PageStatus` from src/unnamed/part_000 (types). -/
inductive PageStatus where
  | PENDING
  | PROCESSING
  | COMPLETED
  | FAILED
deriving DecidableEq

/-- `Page` from src/unnamed/part_000: the `File` blob is modelled by a
string of its bytes/name, the preview data-URL by a string. -/
structure Page where
  id : String
  file : String
  status : PageStatus
  previewUrl : String
  text : Option String := none
  error : Option String := none
deriving DecidableEq

/-- The React component state of `App` (src/App.tsx lines 14-19); the
drag-hover flag is pure UI and omitted. -/
structure AppState where
  pages : List Page
  selectedPages : Finset String
  isProcessing : Bool
  isPdfLoading : Bool
  copySuccess : String
deriving DecidableEq

/-- Oracle for the external OCR call `extractTextFromImage`: returns the
extracted text, or the human-readable error message computed at
src/App.tsx line 115 / 146. -/
abbrev Ocr := Page → Except String String

/-- `setPages(prev => prev.map(p => p.id === pid ? f(p) : p))`:
the update pattern used by every state mutation in src/App.tsx. -/
def updatePage (pages : List Page) (pid : String) (f : Page → Page) : List Page :=
  pages.map fun p => if p.id = pid then f p else p

/-- A page is processed by batch dispatch exactly when the guard at
src/App.tsx line 103 does not return: status is PENDING or FAILED. -/
def processable (p : Page) : Bool :=
  p.status = PageStatus.PENDING || p.status = PageStatus.FAILED

/-- First state update of a batch task (src/App.tsx lines 105-107):
mark the page PROCESSING, keeping every other field. -/
def setProcessing (pages : List Page) (pid : String) : List Page :=
  updatePage pages pid fun p => { p with status := PageStatus.PROCESSING }

/-- Second state update of a batch task (src/App.tsx lines 111-118):
COMPLETED with the returned text, or FAILED with the error message.
Note the spread `{...p, ...}` keeps the other fields (in particular a
stale `error` survives a successful completion). -/
def setOutcome (pages : List Page) (pid : String) (r : Except String String) : List Page :=
  match r with
  | .ok text => updatePage pages pid fun p =>
      { p with status := PageStatus.COMPLETED, text := some text }
  | .error msg => updatePage pages pid fun p =>
      { p with status := PageStatus.FAILED, error := some msg }

/-- One batch task (the async closure at src/App.tsx lines 102-120),
serialised: guard on the captured page's status, then the two updates. -/
def processOnePage (ocr : Ocr) (pages : List Page) (page : Page) : List Page :=
  if processable page then
    setOutcome (setProcessing pages page.id) page.id (ocr page)
  else pages

/-- `processSelectedPages` (src/App.tsx lines 96-126): early return on an
empty selection; otherwise run every task over the captured pages list,
then clear the selection and the in-flight flag. -/
def processSelectedPages (ocr : Ocr) (s : AppState) : AppState :=
  if s.selectedPages = ∅ then s
  else
    let pagesToProcess := s.pages.filter fun p => decide (p.id ∈ s.selectedPages)
    { s with
      pages := pagesToProcess.foldl (processOnePage ocr) s.pages
      selectedPages := ∅
      isProcessing := false }

/-- First state update of `retryPageProcessing` (src/App.tsx lines
136-138): mark PROCESSING and clear the error. -/
def retryStart (pages : List Page) (pid : String) : List Page :=
  updatePage pages pid fun p =>
    { p with status := PageStatus.PROCESSING, error := none }

/-- `retryPageProcessing` (src/App.tsx lines 128-153): no-op when the id
matches no page or a batch is in flight; otherwise clear the error, mark
PROCESSING, call OCR on the captured page, and record the outcome. -/
def retryPageProcessing (ocr : Ocr) (pageId : String) (s : AppState) : AppState :=
  match s.pages.find? (fun p => p.id = pageId) with
  | none => s
  | some pageToRetry =>
    if s.isProcessing then s
    else
      { s with
        pages := setOutcome (retryStart s.pages pageId) pageId (ocr pageToRetry)
        isProcessing := false }

/-- The data `handlePdfFile` obtains for one successfully rendered page
(src/App.tsx lines 36-63): a fresh id, the page image file and the
preview URL. -/
structure DecodedPage where
  id : String
  file : String
  previewUrl : String
deriving DecidableEq

/-- The `Page` built at src/App.tsx lines 56-61: fresh pages start
PENDING with no text and no error. -/
def mkPage (d : DecodedPage) : Page :=
  { id := d.id, file := d.file, status := PageStatus.PENDING, previewUrl := d.previewUrl }

/-- `handlePdfFile` (src/App.tsx lines 21-74).  `validPdf` is the guard
at line 22 (non-null file of type application/pdf; failing it returns
before any state is touched).  `decode` is the outcome of pdf.js
rendering: an error aborts into the catch block (lines 68-70, alert)
after the state was already cleared; success yields one optional decoded
page per PDF page (a page whose canvas context or blob is null is
dropped by the filter at line 65). -/
def handlePdfFile (validPdf : Bool)
    (decode : Except String (List (Option DecodedPage))) (s : AppState) : AppState :=
  if !validPdf then s
  else
    let s1 := { s with
      pages := ([] : List Page)
      selectedPages := (∅ : Finset String)
      isPdfLoading := true
      copySuccess := "" }
    match decode with
    | .ok maybePages =>
        { s1 with
          pages := (maybePages.filterMap id).map mkPage
          isPdfLoading := false }
    | .error _ => { s1 with isPdfLoading := false }

/-- `handleToggleSelectPage` (src/App.tsx lines 155-165). -/
def handleToggleSelectPage (pageId : String) (s : AppState) : AppState :=
  if pageId ∈ s.selectedPages then
    { s with selectedPages := s.selectedPages.erase pageId }
  else
    { s with selectedPages := insert pageId s.selectedPages }

/-- `processablePageIds` (src/App.tsx lines 167-170). -/
def processablePageIds (pages : List Page) : List String :=
  (pages.filter fun p =>
    p.status = PageStatus.PENDING || p.status = PageStatus.FAILED).map Page.id

/-- `allProcessableSelected` (src/App.tsx lines 172-175). -/
def allProcessableSelected (s : AppState) : Bool :=
  decide ((processablePageIds s.pages).length > 0) &&
  (processablePageIds s.pages).all fun id => decide (id ∈ s.selectedPages)

/-- `handleSelectAll` (src/App.tsx lines 177-183). -/
def handleSelectAll (s : AppState) : AppState :=
  if allProcessableSelected s then { s with selectedPages := ∅ }
  else { s with selectedPages := (processablePageIds s.pages).toFinset }

/-- The truthiness test `p.status === PageStatus.COMPLETED && p.text`
of src/App.tsx line 194: in JS an absent or empty string is falsy. -/
def completedWithText (p : Page) : Bool :=
  p.status = PageStatus.COMPLETED && p.text.getD "" ≠ ""

/-- One entry of the combined output (src/App.tsx lines 195-198): header
with the page's 1-based `findIndex` position in the full list, then the
page's text. -/
def pageEntry (pages : List Page) (p : Page) : String :=
  "--- পৃষ্ঠা " ++ toString ((pages.findIdx fun q => q.id = p.id) + 1) ++
    " ---\n\n" ++ p.text.getD ""

/-- `combinedText` (src/App.tsx lines 192-200). -/
def combinedText (pages : List Page) : String :=
  String.intercalate "\n\n"
    ((pages.filter completedWithText).map (pageEntry pages))

/-- The output entry the spec describes: a header with the page's
1-based position in the original list, then the page's text. -/
def combinedEntry (x : Nat × Page) : String :=
  "--- পৃষ্ঠা " ++ toString (x.1 + 1) ++ " ---\n\n" ++ x.2.text.getD ""

/-- The spec's description of the combined output, amended by the
truthiness counterexample: one entry per Completed page with non-empty
text, indexed by actual position, in order, joined by blank lines. -/
def combinedTextSpec (pages : List Page) : String :=
  String.intercalate "\n\n"
    ((pages.enum.filter fun x => completedWithText x.2).map combinedEntry)

/-- The claim's literal description of the combined output: one entry
for every Completed page. -/
def combinedTextClaim (pages : List Page) : String :=
  String.intercalate "\n\n"
    ((pages.enum.filter fun x => decide (x.2.status = PageStatus.COMPLETED)).map
      combinedEntry)

/-! ### Concrete states and oracles used to instantiate the theorems -/

/-- The empty initial component state (src/App.tsx lines 14-19). -/
def initialState : AppState :=
  { pages := [], selectedPages := ∅, isProcessing := false,
    isPdfLoading := false, copySuccess := "" }

/-- A concrete decoded page, as pdf.js would deliver for a 1-page PDF. -/
def dEx : DecodedPage := { id := "a", file := "page_1.jpg", previewUrl := "data:p1" }

/-- An OCR oracle that always succeeds with the text "text1". -/
def ocrOkEx : Ocr := fun _ => .ok "text1"

/-- An OCR oracle that always fails with the message "boom". -/
def ocrErrEx : Ocr := fun _ => .error "boom"

/-- A reachable state holding one FAILED page with a recorded error and
that page selected: obtained from the initial state by loading a 1-page
PDF, selecting all, dispatching against a failing OCR service, and
selecting all again. -/
def failedSelectedState : AppState :=
  handleSelectAll
    (processSelectedPages ocrErrEx
      (handleSelectAll
        (handlePdfFile true (.ok [some dEx]) initialState)))

/-- The single page of `failedSelectedState`: FAILED, with the error
message recorded by the failed dispatch. -/
def failedPageEx : Page :=
  { id := "a", file := "page_1.jpg", status := PageStatus.FAILED,
    previewUrl := "data:p1", text := none, error := some "boom" }

/-- A state holding one COMPLETED page, as produced by a successful
dispatch of the 1-page PDF. -/
def completedState : AppState :=
  processSelectedPages ocrOkEx
    (handleSelectAll
      (handlePdfFile true (.ok [some dEx]) initialState))

/-- A state with one PENDING page that is already selected, obtained by
loading the 1-page PDF and toggling its page into the selection. -/
def pendingSelectedState : AppState :=
  handleToggleSelectPage "a" (handlePdfFile true (.ok [some dEx]) initialState)

/-- An OCR oracle that succeeds with empty text (e.g. a blank page). -/
def ocrEmptyEx : Ocr := fun _ => .ok ""

/-- A reachable state holding one COMPLETED page whose extracted text is
the empty string. -/
def emptyTextState : AppState :=
  processSelectedPages ocrEmptyEx
    (handleSelectAll (handlePdfFile true (.ok [some dEx]) initialState))

/-- Net effect of one batch task on a page entry whose id matches the
dispatched page: skipped unless processable, otherwise COMPLETED with the
text or FAILED with the message (other fields kept by the spreads). -/
def finishPage (ocr : Ocr) (p : Page) : Page :=
  if processable p then
    match ocr p with
    | .ok text => { p with status := PageStatus.COMPLETED, text := some text }
    | .error msg => { p with status := PageStatus.FAILED, error := some msg }
  else p

/-! ## Invariants from the specification -/

/-- Spec section 3 / 8: `text` is present iff the status is Completed. -/
def textInv (p : Page) : Prop := p.text.isSome ↔ p.status = PageStatus.COMPLETED

/-- Spec section 3: `error` is present only when the status is Failed. -/
def errorInv (p : Page) : Prop := p.error.isSome → p.status = PageStatus.FAILED

/-- The full per-page invariant of spec section 3. -/
def pageInv (p : Page) : Prop := textInv p ∧ errorInv p

instance (p : Page) : Decidable (textInv p) := by
  unfold textInv
  infer_instance

instance (p : Page) : Decidable (errorInv p) := by
  unfold errorInv
  infer_instance

instance (p : Page) : Decidable (pageInv p) := by
  unfold pageInv
  infer_instance

/-! ## The status state machine of spec section 4.1 -/

/-- The transitions permitted by spec section 4.1 (plus staying put):
Pending → Processing, Processing → Completed, Processing → Failed,
Failed → Processing. -/
def allowedTransition (s t : PageStatus) : Prop :=
  s = t ∨
  (s = PageStatus.PENDING ∧ t = PageStatus.PROCESSING) ∨
  (s = PageStatus.PROCESSING ∧ t = PageStatus.COMPLETED) ∨
  (s = PageStatus.PROCESSING ∧ t = PageStatus.FAILED) ∨
  (s = PageStatus.FAILED ∧ t = PageStatus.PROCESSING)

instance (s t : PageStatus) : Decidable (allowedTransition s t) := by
  unfold allowedTransition
  infer_instance

/-- Positionwise transition check on optional entries. -/
def transOk : Option Page → Option Page → Prop
  | some p, some q => allowedTransition p.status q.status
  | none, none => True
  | _, _ => False

instance : (a b : Option Page) → Decidable (transOk a b)
  | some _, some _ => by unfold transOk; infer_instance
  | none, none => by unfold transOk; exact inferInstance
  | some _, none => by unfold transOk; exact inferInstance
  | none, some _ => by unfold transOk; exact inferInstance

/-- One state update is admissible when it keeps the list's length and
every page performs an allowed status transition. -/
def stepOk (old new : List Page) : Prop :=
  old.length = new.length ∧ ∀ i < old.length, transOk old[i]? new[i]?

instance (old new : List Page) : Decidable (stepOk old new) := by
  unfold stepOk
  infer_instance

/-- The (zero or two) intermediate pages lists one batch task publishes:
the PROCESSING update, then the outcome update. -/
def batchStep (ocr : Ocr) (pages : List Page) (page : Page) : List (List Page) :=
  if processable page then
    [setProcessing pages page.id,
     setOutcome (setProcessing pages page.id) page.id (ocr page)]
  else []

/-- Every intermediate pages list a serialised batch dispatch publishes,
in order. -/
def batchTrace (ocr : Ocr) : List Page → List Page → List (List Page)
  | _, [] => []
  | pages, page :: rest =>
      batchStep ocr pages page ++ batchTrace ocr (processOnePage ocr pages page) rest

/-! ## Basic lemmas about the update pattern -/

theorem updatePage_length (pages : List Page) (pid : String) (f : Page → Page) :
    (updatePage pages pid f).length = pages.length := by
  simp [updatePage]

theorem updatePage_getElem? (pages : List Page) (pid : String) (f : Page → Page) (i : Nat) :
    (updatePage pages pid f)[i]? =
      (pages[i]?).map fun p => if p.id = pid then f p else p := by
  simp [updatePage]

theorem mem_updatePage {pages : List Page} {pid : String} {f : Page → Page} {q : Page}
    (hq : q ∈ updatePage pages pid f) :
    ∃ p ∈ pages, q = if p.id = pid then f p else p := by
  simpa [updatePage, eq_comm] using hq

theorem finishPage_id (ocr : Ocr) (p : Page) : (finishPage ocr p).id = p.id := by
  unfold finishPage
  by_cases h : processable p
  · rw [if_pos h]
    cases ocr p <;> simp
  · rw [if_neg h]

theorem processable_iff (p : Page) :
    processable p = true ↔
      (p.status = PageStatus.PENDING ∨ p.status = PageStatus.FAILED) := by
  simp [processable]

/-- C10: dispatching with an empty selection changes nothing at all. -/
theorem processSelectedPages_empty (ocr : Ocr) (s : AppState)
    (h : s.selectedPages = ∅) : processSelectedPages ocr s = s := by
  simp [processSelectedPages, h]

theorem processSelectedPages_empty_witness :
    processSelectedPages ocrOkEx initialState = initialState :=
  processSelectedPages_empty ocrOkEx initialState rfl

/-- C8: a PDF decoding failure aborts the upload with no partial state:
the pages list and the selection set end empty. -/
theorem handlePdfFile_decode_error (s : AppState) (e : String) :
    (handlePdfFile true (.error e) s).pages = [] ∧
    (handlePdfFile true (.error e) s).selectedPages = ∅ :=
  ⟨rfl, rfl⟩

/-! ## Characterisation of batch dispatch -/

/-- One batch task rewrites exactly the entries sharing the dispatched
page's id, by `finishPage`, provided the captured page agrees with the
current entries of that id. -/
theorem processOnePage_eq (ocr : Ocr) (pages : List Page) (p : Page)
    (hp : ∀ q ∈ pages, q.id = p.id → q = p) :
    processOnePage ocr pages p =
      pages.map fun q => if q.id = p.id then finishPage ocr q else q := by
  unfold processOnePage
  by_cases h : processable p
  · rw [if_pos h]
    cases hocr : ocr p with
    | ok t =>
      simp only [setOutcome, setProcessing, updatePage, List.map_map]
      apply List.map_congr_left
      intro q hq
      by_cases hid : q.id = p.id
      · have hqp : q = p := hp q hq hid
        simp [Function.comp, hid, finishPage, hqp, h, hocr]
      · simp [Function.comp, hid]
    | error m =>
      simp only [setOutcome, setProcessing, updatePage, List.map_map]
      apply List.map_congr_left
      intro q hq
      by_cases hid : q.id = p.id
      · have hqp : q = p := hp q hq hid
        simp [Function.comp, hid, finishPage, hqp, h, hocr]
      · simp [Function.comp, hid]
  · rw [if_neg h]
    symm
    refine (List.map_congr_left fun q hq => ?_).trans (List.map_id pages)
    by_cases hid : q.id = p.id
    · have hqp : q = p := hp q hq hid
      simp [hid, finishPage, hqp, h]
    · simp [hid]

/-- Serialised batch processing rewrites exactly the entries whose id is
among the dispatched pages, each by `finishPage`, provided the dispatched
pages have distinct ids and agree with the current entries. -/
theorem foldl_processOnePage_eq (ocr : Ocr) :
    ∀ (toProcess pages : List Page),
      (toProcess.map Page.id).Nodup →
      (∀ p ∈ toProcess, ∀ q ∈ pages, q.id = p.id → q = p) →
      toProcess.foldl (processOnePage ocr) pages =
        pages.map fun q =>
          if toProcess.any (fun p => p.id = q.id) then finishPage ocr q else q
  | [], pages, _, _ => by simp
  | p :: rest, pages, hnd, hcap => by
    rw [List.map_cons, List.nodup_cons] at hnd
    obtain ⟨hped, hnd2⟩ := hnd
    rw [List.foldl_cons, processOnePage_eq ocr pages p (hcap p (List.mem_cons_self p rest))]
    rw [foldl_processOnePage_eq ocr rest _ hnd2 ?hcap2]
    case hcap2 =>
      intro r hr q1 hq1 hid1
      obtain ⟨q, hq, hq1eq⟩ := List.mem_map.mp hq1
      have hrp : r.id ≠ p.id := by
        intro hc
        exact hped (hc ▸ List.mem_map_of_mem Page.id hr)
      by_cases hid : q.id = p.id
      · exfalso
        rw [← hq1eq] at hid1
        rw [if_pos hid, finishPage_id] at hid1
        exact hrp (hid1.symm.trans hid)
      · rw [← hq1eq] at hid1 ⊢
        rw [if_neg hid] at hid1 ⊢
        exact hcap r (List.mem_cons_of_mem p hr) q hq hid1
    rw [List.map_map]
    apply List.map_congr_left
    intro q hq
    by_cases hid : q.id = p.id
    · have hrest : (rest.any fun r => decide (r.id = q.id)) = false := by
        rw [List.any_eq_false]
        intro r hr
        simp only [decide_eq_true_eq]
        intro hc
        exact hped ((hc.trans hid) ▸ List.mem_map_of_mem Page.id hr)
      have hcons : ((p :: rest).any fun r => decide (r.id = q.id)) = true := by
        simp [hid]
      simp only [Function.comp_apply]
      rw [if_pos hid, finishPage_id, hrest, hcons]
      simp
    · have hpq : decide (p.id = q.id) = false := by
        simp only [decide_eq_false_iff_not]
        exact fun hc => hid hc.symm
      have hany : ((p :: rest).any fun r => decide (r.id = q.id)) =
          rest.any fun r => decide (r.id = q.id) := by
        simp [List.any_cons, hpq]
      simp only [Function.comp_apply]
      rw [if_neg hid, hany]

/-- Final pages list of a batch dispatch with a non-empty selection,
under distinct page ids: every entry whose id is selected is finished
according to the OCR outcome, every other entry is untouched. -/
theorem processSelectedPages_pages (ocr : Ocr) (s : AppState)
    (hnd : (s.pages.map Page.id).Nodup) (hne : s.selectedPages ≠ ∅) :
    (processSelectedPages ocr s).pages =
      s.pages.map fun q => if q.id ∈ s.selectedPages then finishPage ocr q else q := by
  have hinj := List.inj_on_of_nodup_map hnd
  unfold processSelectedPages
  rw [if_neg hne]
  simp only
  rw [foldl_processOnePage_eq ocr _ _ ?nd ?cap]
  case nd =>
    exact ((List.filter_sublist s.pages).map Page.id).nodup hnd
  case cap =>
    intro p hp q hq hid
    exact hinj hq (List.mem_of_mem_filter hp) hid
  apply List.map_congr_left
  intro q hq
  by_cases hsel : q.id ∈ s.selectedPages
  · have hq2 : q ∈ s.pages.filter fun p => decide (p.id ∈ s.selectedPages) :=
      List.mem_filter.mpr ⟨hq, by simpa using hsel⟩
    have hany : ((s.pages.filter fun p => decide (p.id ∈ s.selectedPages)).any
        fun p => decide (p.id = q.id)) = true := by
      rw [List.any_eq_true]
      exact ⟨q, hq2, by simp⟩
    rw [hany, if_pos hsel]
    simp
  · have hany : ((s.pages.filter fun p => decide (p.id ∈ s.selectedPages)).any
        fun p => decide (p.id = q.id)) = false := by
      rw [List.any_eq_false]
      intro p hp
      simp only [decide_eq_true_eq]
      intro hc
      obtain ⟨hpm, hps⟩ := List.mem_filter.mp hp
      have : p = q := hinj hpm hq hc
      exact hsel (by simpa [this] using hps)
    rw [hany, if_neg hsel]
    simp

/-- Fields of the batch-dispatch result other than the pages list. -/
theorem processSelectedPages_rest (ocr : Ocr) (s : AppState)
    (hne : s.selectedPages ≠ ∅) :
    (processSelectedPages ocr s).selectedPages = ∅ ∧
    (processSelectedPages ocr s).isProcessing = false := by
  unfold processSelectedPages
  rw [if_neg hne]
  exact ⟨rfl, rfl⟩

/-- C3: batch dispatch processes a selected page exactly when its status
is Pending or Failed, moving it to Completed with the returned text or
to Failed with the error message; a selected Processing or Completed
page is left unchanged. -/
theorem batch_dispatch_per_page (ocr : Ocr) (s : AppState)
    (hnd : (s.pages.map Page.id).Nodup)
    (i : Nat) (p : Page) (hip : s.pages[i]? = some p) (hsel : p.id ∈ s.selectedPages) :
    ((p.status = PageStatus.PENDING ∨ p.status = PageStatus.FAILED) →
      (processSelectedPages ocr s).pages[i]? = some (match ocr p with
        | .ok text => { p with status := PageStatus.COMPLETED, text := some text }
        | .error msg => { p with status := PageStatus.FAILED, error := some msg })) ∧
    ((p.status = PageStatus.PROCESSING ∨ p.status = PageStatus.COMPLETED) →
      (processSelectedPages ocr s).pages[i]? = some p) := by
  have hne : s.selectedPages ≠ ∅ := Finset.ne_empty_of_mem hsel
  rw [processSelectedPages_pages ocr s hnd hne]
  rw [List.getElem?_map, hip]
  simp only [Option.map_some']
  rw [if_pos hsel]
  constructor
  · intro hstat
    have hproc : processable p = true := (processable_iff p).mpr hstat
    unfold finishPage
    rw [if_pos hproc]
  · intro hstat
    have hproc : processable p = false := by
      rcases hstat with h | h <;> simp [processable, h]
    unfold finishPage
    rw [if_neg (by simp [hproc])]

theorem batch_dispatch_per_page_witness :
    (processSelectedPages ocrOkEx failedSelectedState).pages[0]? =
      some { failedPageEx with status := PageStatus.COMPLETED, text := some "text1" } :=
  (batch_dispatch_per_page ocrOkEx failedSelectedState (by decide) 0 failedPageEx
    (by decide) (by decide)).1 (Or.inr (by decide))

/-- C4: once a batch dispatch has completed, the selection set is empty
and (starting from a quiescent state, where no page was already stuck in
Processing) no page has status Processing. -/
theorem batch_dispatch_postcondition (ocr : Ocr) (s : AppState)
    (hnd : (s.pages.map Page.id).Nodup)
    (hnp : ∀ p ∈ s.pages, p.status ≠ PageStatus.PROCESSING) :
    (processSelectedPages ocr s).selectedPages = ∅ ∧
    ∀ p ∈ (processSelectedPages ocr s).pages, p.status ≠ PageStatus.PROCESSING := by
  by_cases hne : s.selectedPages = ∅
  · rw [processSelectedPages_empty ocr s hne]
    exact ⟨hne, hnp⟩
  · refine ⟨(processSelectedPages_rest ocr s hne).1, ?_⟩
    rw [processSelectedPages_pages ocr s hnd hne]
    intro p hp
    obtain ⟨q, hq, rfl⟩ := List.mem_map.mp hp
    by_cases hsel : q.id ∈ s.selectedPages
    · rw [if_pos hsel]
      unfold finishPage
      by_cases hproc : processable q
      · rw [if_pos hproc]
        cases ocr q <;> simp
      · rw [if_neg hproc]
        exact hnp q hq
    · rw [if_neg hsel]
      exact hnp q hq

theorem batch_dispatch_postcondition_witness :
    (processSelectedPages ocrOkEx failedSelectedState).selectedPages = ∅ ∧
    ∀ p ∈ (processSelectedPages ocrOkEx failedSelectedState).pages,
      p.status ≠ PageStatus.PROCESSING :=
  batch_dispatch_postcondition ocrOkEx failedSelectedState (by decide) (by decide)

/-! ## Characterisation of retry -/

/-- Final pages list of a retry that passes its guard: every entry whose
id matches is rewritten according to the OCR outcome on the captured
page, with the error cleared first (so a successful retry ends with no
error); every other entry is untouched. -/
theorem retry_pages_eq (ocr : Ocr) (pid : String) (s : AppState) (p : Page)
    (hfind : s.pages.find? (fun q => q.id = pid) = some p)
    (hproc : s.isProcessing = false) :
    (retryPageProcessing ocr pid s).pages =
      s.pages.map (fun q => if q.id = pid then
        (match ocr p with
         | .ok t => { q with status := PageStatus.COMPLETED, error := none, text := some t }
         | .error m => { q with status := PageStatus.FAILED, error := some m })
        else q) ∧
    (retryPageProcessing ocr pid s).isProcessing = false := by
  unfold retryPageProcessing
  rw [hfind]
  simp only [hproc, Bool.false_eq_true, if_false, ite_false]
  refine ⟨?_, by trivial⟩
  cases hocr : ocr p with
  | ok t =>
    simp only [setOutcome, retryStart, updatePage, List.map_map]
    apply List.map_congr_left
    intro q hq
    by_cases hid : q.id = pid
    · simp [Function.comp, hid]
    · simp [Function.comp, hid]
  | error m =>
    simp only [setOutcome, retryStart, updatePage, List.map_map]
    apply List.map_congr_left
    intro q hq
    by_cases hid : q.id = pid
    · simp [Function.comp, hid]
    · simp [Function.comp, hid]

/-- C5: retry is a no-op when a batch is in flight or the id matches no
page; on a Failed page with no batch in flight it first clears the error
and marks the page Processing, then ends Completed with the extracted
text or Failed with the new error message, and clears the in-flight
flag. -/
theorem retry_behavior :
    (∀ (ocr : Ocr) (pid : String) (s : AppState),
      s.isProcessing = true → retryPageProcessing ocr pid s = s) ∧
    (∀ (ocr : Ocr) (pid : String) (s : AppState),
      s.pages.find? (fun q => q.id = pid) = none → retryPageProcessing ocr pid s = s) ∧
    (∀ (ocr : Ocr) (pid : String) (s : AppState) (p : Page),
      s.pages.find? (fun q => q.id = pid) = some p → s.isProcessing = false →
      p.status = PageStatus.FAILED →
      ∀ (i : Nat) (q : Page), s.pages[i]? = some q → q.id = pid →
        (retryStart s.pages pid)[i]? =
          some { q with status := PageStatus.PROCESSING, error := none } ∧
        (retryPageProcessing ocr pid s).pages[i]? = some (match ocr p with
          | .ok t => { q with status := PageStatus.COMPLETED, error := none, text := some t }
          | .error m => { q with status := PageStatus.FAILED, error := some m }) ∧
        (retryPageProcessing ocr pid s).isProcessing = false) := by
  refine ⟨?_, ?_, ?_⟩
  · intro ocr pid s h
    unfold retryPageProcessing
    split
    · rfl
    · rw [if_pos h]
  · intro ocr pid s h
    unfold retryPageProcessing
    rw [h]
  · intro ocr pid s p hfind hproc hfail i q hiq hid
    obtain ⟨hpages, hflag⟩ := retry_pages_eq ocr pid s p hfind hproc
    refine ⟨?_, ?_, hflag⟩
    · rw [retryStart, updatePage_getElem?, hiq]
      simp [hid]
    · rw [hpages, List.getElem?_map, hiq]
      simp [hid]

theorem retry_behavior_witness :
    (retryStart failedSelectedState.pages "a")[0]? =
      some { failedPageEx with status := PageStatus.PROCESSING, error := none } ∧
    (retryPageProcessing ocrOkEx "a" failedSelectedState).pages[0]? =
      some { failedPageEx with status := PageStatus.COMPLETED, error := none, text := some "text1" } ∧
    (retryPageProcessing ocrOkEx "a" failedSelectedState).isProcessing = false :=
  retry_behavior.2.2 ocrOkEx "a" failedSelectedState failedPageEx (by decide) (by decide)
    (by decide) 0 failedPageEx (by decide) (by decide)

/-! ## The per-page invariant (claim about spec section 3) -/

/-- Refutation of the error half of the invariant: `failedSelectedState`
is reachable (second conjunct recomputes it from the initial state), its
pages all satisfy the invariant, yet dispatching its selected FAILED page
against a succeeding OCR service produces a COMPLETED page that still
carries the stale error message — batch dispatch does not preserve
"error present only when Failed". -/
theorem batch_retains_stale_error_cex :
    (∀ p ∈ failedSelectedState.pages, pageInv p) ∧
    failedSelectedState =
      handleSelectAll (processSelectedPages ocrErrEx
        (handleSelectAll (handlePdfFile true (.ok [some dEx]) initialState))) ∧
    ∃ p ∈ (processSelectedPages ocrOkEx failedSelectedState).pages,
      p.status = PageStatus.COMPLETED ∧ p.error.isSome ∧ ¬ pageInv p := by
  exact ⟨by decide, rfl, by decide⟩

/-- C1 as amended: PDF decoding establishes the full invariant; the text
half ("text present iff Completed") is preserved from any state
satisfying it — which every reachable state does — by batch dispatch
and by retry on a Failed page, and a retried entry additionally ends
with `error` present only if it ends Failed.  (The error half is not an
invariant: batch dispatch does not preserve it, per
`batch_retains_stale_error_cex`, so the preservation hypotheses here
assume only the text half.) -/
theorem text_iff_completed_invariant :
    (∀ (ds : List (Option DecodedPage)) (s : AppState),
      ∀ p ∈ (handlePdfFile true (.ok ds) s).pages, pageInv p) ∧
    (∀ (ocr : Ocr) (s : AppState),
      (s.pages.map Page.id).Nodup →
      (∀ p ∈ s.pages, textInv p) →
      ∀ p ∈ (processSelectedPages ocr s).pages, textInv p) ∧
    (∀ (ocr : Ocr) (pid : String) (s : AppState) (p : Page),
      (s.pages.map Page.id).Nodup →
      s.pages.find? (fun q => q.id = pid) = some p →
      s.isProcessing = false →
      p.status = PageStatus.FAILED →
      (∀ q ∈ s.pages, textInv q) →
      (∀ q ∈ (retryPageProcessing ocr pid s).pages, textInv q) ∧
      (∀ q ∈ (retryPageProcessing ocr pid s).pages, q.id = pid → errorInv q)) := by
  refine ⟨?_, ?_, ?_⟩
  · intro ds s p hp
    simp only [handlePdfFile, Bool.not_true, Bool.false_eq_true, if_false, ite_false] at hp
    obtain ⟨d, _, rfl⟩ := List.mem_map.mp hp
    simp [mkPage, pageInv, textInv, errorInv]
  · intro ocr s hnd hinv p hp
    by_cases hne : s.selectedPages = ∅
    · rw [processSelectedPages_empty ocr s hne] at hp
      exact hinv p hp
    · rw [processSelectedPages_pages ocr s hnd hne] at hp
      obtain ⟨q, hq, rfl⟩ := List.mem_map.mp hp
      by_cases hsel : q.id ∈ s.selectedPages
      · rw [if_pos hsel]
        unfold finishPage
        by_cases hproc : processable q
        · rw [if_pos hproc]
          have hqnc : q.status ≠ PageStatus.COMPLETED := by
            rcases (processable_iff q).mp hproc with h | h <;> simp [h]
          have hqt : q.text.isSome = false := by
            rcases h : q.text.isSome with _ | _
            · rfl
            · exact absurd ((hinv q hq).mp (by simp [h])) hqnc
          cases ocr q with
          | ok t => simp [textInv]
          | error m =>
            simp only [textInv]
            simp [hqt]
        · rw [if_neg hproc]
          exact hinv q hq
      · rw [if_neg hsel]
        exact hinv q hq
  · intro ocr pid s p hnd hfind hproc hfail hinv
    have hpm : p ∈ s.pages := List.mem_of_find?_eq_some hfind
    have hpid : p.id = pid := by
      have := List.find?_some hfind
      simpa using this
    have hinj := List.inj_on_of_nodup_map hnd
    constructor
    · intro q hq
      rw [(retry_pages_eq ocr pid s p hfind hproc).1] at hq
      obtain ⟨r, hr, rfl⟩ := List.mem_map.mp hq
      by_cases hid : r.id = pid
      · rw [if_pos hid]
        have hrp : r = p := hinj hr hpm (hid.trans hpid.symm)
        have hrt : r.text.isSome = false := by
          rcases h : r.text.isSome with _ | _
          · rfl
          · have := (hinv r hr).mp (by simp [h])
            rw [hrp, hfail] at this
            exact absurd this (by simp)
        cases ocr p with
        | ok t => simp [textInv]
        | error m =>
          simp only [textInv]
          simp [hrt]
      · rw [if_neg hid]
        exact hinv r hr
    · intro q hq hqid
      rw [(retry_pages_eq ocr pid s p hfind hproc).1] at hq
      obtain ⟨r, hr, rfl⟩ := List.mem_map.mp hq
      by_cases hid : r.id = pid
      · rw [if_pos hid]
        cases ocr p with
        | ok t => simp [errorInv]
        | error m => simp [errorInv]
      · rw [if_neg hid] at hqid
        exact absurd hqid hid

theorem text_iff_completed_invariant_witness :
    (∀ p ∈ (handlePdfFile true (.ok [some dEx]) initialState).pages, pageInv p) ∧
    (∀ p ∈ (processSelectedPages ocrOkEx failedSelectedState).pages, textInv p) ∧
    (∀ q ∈ (retryPageProcessing ocrOkEx "a" failedSelectedState).pages, textInv q) ∧
    (∀ q ∈ (retryPageProcessing ocrOkEx "a" failedSelectedState).pages,
      q.id = "a" → errorInv q) :=
  ⟨text_iff_completed_invariant.1 [some dEx] initialState,
   text_iff_completed_invariant.2.1 ocrOkEx failedSelectedState (by decide) (by decide),
   (text_iff_completed_invariant.2.2 ocrOkEx "a" failedSelectedState failedPageEx
     (by decide) (by decide) (by decide) (by decide) (by decide)).1,
   (text_iff_completed_invariant.2.2 ocrOkEx "a" failedSelectedState failedPageEx
     (by decide) (by decide) (by decide) (by decide) (by decide)).2⟩

/-! ## Retry versus singleton batch dispatch -/

/-- Refutation of the unrestricted equivalence: on the reachable state
holding one COMPLETED page (no batch in flight), retry re-processes the
page — a failing OCR call turns it FAILED — while batch dispatch with
just that id skips it as non-processable.  The two final pages lists
differ in status, not merely in the cleared error. -/
theorem retry_differs_from_batch_cex :
    completedState.isProcessing = false ∧
    (retryPageProcessing ocrErrEx "a" completedState).pages.map Page.status ≠
      (processSelectedPages ocrErrEx
        { completedState with selectedPages := {"a"} }).pages.map Page.status := by
  exact ⟨by decide, by decide⟩

/-- C6 as amended: when the identifier matches no page, or matches a
processable (Pending or Failed) page — the only pages the UI offers
retry for — retry yields the same final pages list as batch dispatch
with the selection holding exactly that identifier, except that a
successful retry additionally clears the page's previous error.  (For a
Processing or Completed page the two differ: batch skips it, retry
re-processes it, per `retry_differs_from_batch_cex`.) -/
theorem retry_refines_singleton_batch :
    (∀ (ocr : Ocr) (pid : String) (s : AppState),
      s.isProcessing = false →
      s.pages.find? (fun q => q.id = pid) = none →
      (retryPageProcessing ocr pid s).pages =
        (processSelectedPages ocr { s with selectedPages := {pid} }).pages) ∧
    (∀ (ocr : Ocr) (pid : String) (s : AppState) (p : Page),
      (s.pages.map Page.id).Nodup →
      s.isProcessing = false →
      s.pages.find? (fun q => q.id = pid) = some p →
      processable p = true →
      (∀ t, ocr p = .ok t →
        (retryPageProcessing ocr pid s).pages =
          updatePage (processSelectedPages ocr { s with selectedPages := {pid} }).pages
            pid (fun q => { q with error := none })) ∧
      (∀ m, ocr p = .error m →
        (retryPageProcessing ocr pid s).pages =
          (processSelectedPages ocr { s with selectedPages := {pid} }).pages)) := by
  constructor
  · intro ocr pid s hproc hnone
    have hretry : retryPageProcessing ocr pid s = s := by
      unfold retryPageProcessing
      rw [hnone]
    have hfilter : (s.pages.filter fun q => decide (q.id ∈ ({pid} : Finset String))) = [] := by
      rw [List.filter_eq_nil_iff]
      intro q hq
      simp only [Finset.mem_singleton, decide_eq_true_eq]
      have := List.find?_eq_none.mp hnone q hq
      simpa using this
    rw [hretry]
    unfold processSelectedPages
    rw [if_neg (by simp)]
    simp only [hfilter, List.foldl_nil]
  · intro ocr pid s p hnd hproc hfind hprocable
    have hpm : p ∈ s.pages := List.mem_of_find?_eq_some hfind
    have hpid : p.id = pid := by
      have := List.find?_some hfind
      simpa using this
    have hinj := List.inj_on_of_nodup_map hnd
    have hretry := (retry_pages_eq ocr pid s p hfind hproc).1
    have hbatch : (processSelectedPages ocr { s with selectedPages := {pid} }).pages =
        s.pages.map fun q =>
          if q.id ∈ ({pid} : Finset String) then finishPage ocr q else q :=
      processSelectedPages_pages ocr _ hnd (by simp)
    constructor
    · intro t hocr
      rw [hretry, hbatch]
      unfold updatePage
      rw [List.map_map]
      apply List.map_congr_left
      intro q hq
      by_cases hid : q.id = pid
      · have hqp : q = p := hinj hq hpm (hid.trans hpid.symm)
        have hpq : processable q = true := by rw [hqp]; exact hprocable
        have hoq : ocr q = Except.ok t := by rw [hqp]; exact hocr
        have hfin : finishPage ocr q =
            { q with status := PageStatus.COMPLETED, text := some t } := by
          unfold finishPage
          rw [if_pos hpq, hoq]
        simp only [Function.comp_apply, Finset.mem_singleton, hid, ite_true, hfin, hocr]
      · simp [Function.comp, Finset.mem_singleton, hid]
    · intro m hocr
      rw [hretry, hbatch]
      apply List.map_congr_left
      intro q hq
      by_cases hid : q.id = pid
      · have hqp : q = p := hinj hq hpm (hid.trans hpid.symm)
        have hpq : processable q = true := by rw [hqp]; exact hprocable
        have hoq : ocr q = Except.error m := by rw [hqp]; exact hocr
        have hfin : finishPage ocr q =
            { q with status := PageStatus.FAILED, error := some m } := by
          unfold finishPage
          rw [if_pos hpq, hoq]
        simp only [Finset.mem_singleton, hid, ite_true, hfin, hocr]
      · simp [Finset.mem_singleton, hid]

theorem retry_refines_singleton_batch_witness :
    (retryPageProcessing ocrOkEx "a" failedSelectedState).pages =
      updatePage (processSelectedPages ocrOkEx
        { failedSelectedState with selectedPages := {"a"} }).pages
        "a" (fun q => { q with error := none }) :=
  (retry_refines_singleton_batch.2 ocrOkEx "a" failedSelectedState failedPageEx
    (by decide) (by decide) (by decide) (by decide)).1 "text1" rfl

/-! ## Select-all toggling -/

/-- Refutation of the unconditional toggle claim: in the reachable state
with one PENDING page already selected, all processable pages are
selected, so the first select-all invocation empties the selection
instead of making it contain the processable ids. -/
theorem selectAll_already_selected_cex :
    processablePageIds pendingSelectedState.pages ≠ [] ∧
    ¬ (∀ i ∈ processablePageIds pendingSelectedState.pages,
        i ∈ (handleSelectAll pendingSelectedState).selectedPages) := by
  exact ⟨by decide, by decide⟩

/-- C9 as amended: from a state with at least one processable page where
not all processable pages are selected yet, one select-all invocation
makes the selection exactly the processable page ids, and a second
invocation empties it.  (When all processable pages were already
selected the first invocation empties the selection instead, per
`selectAll_already_selected_cex`.) -/
theorem selectAll_toggle (s : AppState)
    (h1 : processablePageIds s.pages ≠ [])
    (h2 : allProcessableSelected s = false) :
    (∀ i, i ∈ (handleSelectAll s).selectedPages ↔ i ∈ processablePageIds s.pages) ∧
    (handleSelectAll (handleSelectAll s)).selectedPages = ∅ := by
  have hs1 : handleSelectAll s =
      { s with selectedPages := (processablePageIds s.pages).toFinset } := by
    unfold handleSelectAll
    rw [h2]
    simp
  constructor
  · intro i
    rw [hs1]
    exact List.mem_toFinset
  · rw [hs1]
    have hall : allProcessableSelected
        { s with selectedPages := (processablePageIds s.pages).toFinset } = true := by
      unfold allProcessableSelected
      rw [Bool.and_eq_true]
      constructor
      · simp only [decide_eq_true_eq]
        exact List.length_pos.mpr h1
      · rw [List.all_eq_true]
        intro i hi
        simpa using List.mem_toFinset.mpr hi
    unfold handleSelectAll
    rw [hall]
    simp

theorem selectAll_toggle_witness :
    (∀ i, i ∈ (handleSelectAll (handlePdfFile true (.ok [some dEx]) initialState)).selectedPages ↔
      i ∈ processablePageIds (handlePdfFile true (.ok [some dEx]) initialState).pages) ∧
    (handleSelectAll (handleSelectAll
      (handlePdfFile true (.ok [some dEx]) initialState))).selectedPages = ∅ :=
  selectAll_toggle (handlePdfFile true (.ok [some dEx]) initialState) (by decide) (by decide)

/-! ## The transition system -/

/-- A keyed update is an admissible step whenever the matched entries
make an allowed transition. -/
theorem stepOk_updatePage (pages : List Page) (pid : String) (f : Page → Page)
    (hf : ∀ q ∈ pages, q.id = pid → allowedTransition q.status (f q).status) :
    stepOk pages (updatePage pages pid f) := by
  refine ⟨(updatePage_length pages pid f).symm, ?_⟩
  intro i hi
  rw [updatePage_getElem?]
  cases hip : pages[i]? with
  | none => exact trivial
  | some q =>
    simp only [Option.map_some']
    show allowedTransition q.status (if q.id = pid then f q else q).status
    by_cases hid : q.id = pid
    · rw [if_pos hid]
      exact hf q (List.getElem?_mem hip) hid
    · rw [if_neg hid]
      exact Or.inl rfl

/-- Matched entries of a keyed update whose payload sets PROCESSING are
PROCESSING. -/
theorem status_of_mem_updatePage_processing {pages : List Page} {pid : String}
    (f : Page → Page) (hf : ∀ x, (f x).status = PageStatus.PROCESSING)
    {q : Page} (hq : q ∈ updatePage pages pid f) (hid : q.id = pid) :
    q.status = PageStatus.PROCESSING := by
  obtain ⟨q0, hq0, hq0eq⟩ := mem_updatePage hq
  subst hq0eq
  by_cases h0 : q0.id = pid
  · rw [if_pos h0]
    exact hf q0
  · rw [if_neg h0] at hid
    exact absurd hid h0

/-- An entry of a keyed update (with an id-preserving payload) whose id
does not match is one of the original entries. -/
theorem mem_updatePage_of_ne {pages : List Page} {pid : String} {f : Page → Page}
    {q : Page} (hq : q ∈ updatePage pages pid f)
    (hf : ∀ x, (f x).id = x.id) (hid : q.id ≠ pid) : q ∈ pages := by
  obtain ⟨q0, hq0, hq0eq⟩ := mem_updatePage hq
  by_cases h0 : q0.id = pid
  · exfalso
    apply hid
    rw [hq0eq, if_pos h0, hf q0, h0]
  · rw [hq0eq, if_neg h0]
    exact hq0

/-- Entries of one task's outcome list whose id differs from the
dispatched page are exactly the original entries. -/
theorem mem_batch_outcome_unchanged {pages : List Page} {pid : String}
    (r : Except String String) {q : Page}
    (hq : q ∈ setOutcome (setProcessing pages pid) pid r) (hid : q.id ≠ pid) :
    q ∈ pages := by
  have h1 : q ∈ setProcessing pages pid := by
    cases r with
    | ok t =>
      simp only [setOutcome] at hq
      exact mem_updatePage_of_ne hq (fun x => rfl) hid
    | error m =>
      simp only [setOutcome] at hq
      exact mem_updatePage_of_ne hq (fun x => rfl) hid
  simp only [setProcessing] at h1
  exact mem_updatePage_of_ne h1 (fun x => rfl) hid

/-- Every consecutive pair of pages lists along a serialised batch
dispatch is an admissible step, provided the dispatched pages have
distinct ids and agree in status with the current entries. -/
theorem chain_batchTrace (ocr : Ocr) :
    ∀ (toProcess pages : List Page),
      (toProcess.map Page.id).Nodup →
      (∀ p ∈ toProcess, ∀ q ∈ pages, q.id = p.id → q.status = p.status) →
      List.Chain' stepOk (pages :: batchTrace ocr pages toProcess)
  | [], pages, _, _ => by simp [batchTrace]
  | p :: rest, pages, hnd, hcap => by
    rw [List.map_cons, List.nodup_cons] at hnd
    obtain ⟨hped, hnd2⟩ := hnd
    unfold batchTrace batchStep
    by_cases hpr : processable p
    · rw [if_pos hpr]
      have hpp : processOnePage ocr pages p =
          setOutcome (setProcessing pages p.id) p.id (ocr p) := by
        unfold processOnePage
        rw [if_pos hpr]
      rw [hpp]
      simp only [List.cons_append, List.nil_append]
      have h1 : stepOk pages (setProcessing pages p.id) := by
        unfold setProcessing
        apply stepOk_updatePage
        intro q hq hid
        have hqs : q.status = p.status := hcap p (List.mem_cons_self p rest) q hq hid
        rcases (processable_iff p).mp hpr with h | h
        · exact Or.inr (Or.inl ⟨hqs.trans h, rfl⟩)
        · exact Or.inr (Or.inr (Or.inr (Or.inr ⟨hqs.trans h, rfl⟩)))
      have h2 : stepOk (setProcessing pages p.id)
          (setOutcome (setProcessing pages p.id) p.id (ocr p)) := by
        cases ocr p with
        | ok t =>
          unfold setOutcome
          apply stepOk_updatePage
          intro q hq hid
          have hqs : q.status = PageStatus.PROCESSING :=
            status_of_mem_updatePage_processing _ (fun x => rfl) hq hid
          exact Or.inr (Or.inr (Or.inl ⟨hqs, rfl⟩))
        | error m =>
          unfold setOutcome
          apply stepOk_updatePage
          intro q hq hid
          have hqs : q.status = PageStatus.PROCESSING :=
            status_of_mem_updatePage_processing _ (fun x => rfl) hq hid
          exact Or.inr (Or.inr (Or.inr (Or.inl ⟨hqs, rfl⟩)))
      refine List.chain'_cons.mpr ⟨h1, List.chain'_cons.mpr ⟨h2,
        chain_batchTrace ocr rest _ hnd2 ?_⟩⟩
      intro r hr q hq hid
      have hrp : r.id ≠ p.id := by
        intro hc
        exact hped (hc ▸ List.mem_map_of_mem Page.id hr)
      have hqo : q ∈ pages :=
        mem_batch_outcome_unchanged (ocr p) hq (by rw [hid]; exact hrp)
      exact hcap r (List.mem_cons_of_mem p hr) q hqo hid
    · rw [if_neg hpr]
      have hpp : processOnePage ocr pages p = pages := by
        unfold processOnePage
        rw [if_neg hpr]
      rw [hpp, List.nil_append]
      exact chain_batchTrace ocr rest pages hnd2
        (fun r hr => hcap r (List.mem_cons_of_mem p hr))

/-- The last pages list of the trace (the original one if nothing was
processed) is exactly the foldl the operation commits. -/
theorem batchTrace_getLastD (ocr : Ocr) :
    ∀ (toProcess pages : List Page),
      (batchTrace ocr pages toProcess).getLastD pages =
        toProcess.foldl (processOnePage ocr) pages
  | [], pages => by simp [batchTrace]
  | p :: rest, pages => by
    unfold batchTrace batchStep
    by_cases hpr : processable p
    · rw [if_pos hpr]
      have hpp : processOnePage ocr pages p =
          setOutcome (setProcessing pages p.id) p.id (ocr p) := by
        unfold processOnePage
        rw [if_pos hpr]
      rw [List.foldl_cons, hpp]
      simp only [List.cons_append, List.nil_append, List.getLastD_cons]
      exact batchTrace_getLastD ocr rest _
    · rw [if_neg hpr]
      have hpp : processOnePage ocr pages p = pages := by
        unfold processOnePage
        rw [if_neg hpr]
      rw [List.foldl_cons, hpp, List.nil_append]
      exact batchTrace_getLastD ocr rest pages

/-- C2: pages produced from PDF decoding start Pending; every state
update a batch dispatch publishes performs only allowed transitions
(Pending → Processing, Processing → Completed/Failed,
Failed → Processing — in particular nothing leaves Completed), and the
committed pages list is the last one of that trace; retry on a Failed
page likewise publishes only allowed transitions; selection changes
never touch the pages. -/
theorem status_transitions_allowed :
    (∀ (ds : List (Option DecodedPage)) (s : AppState),
      ∀ p ∈ (handlePdfFile true (.ok ds) s).pages, p.status = PageStatus.PENDING) ∧
    (∀ (ocr : Ocr) (s : AppState),
      (s.pages.map Page.id).Nodup →
      List.Chain' stepOk (s.pages ::
        batchTrace ocr s.pages (s.pages.filter fun p => decide (p.id ∈ s.selectedPages))) ∧
      (s.selectedPages ≠ ∅ →
        (processSelectedPages ocr s).pages =
          (batchTrace ocr s.pages
            (s.pages.filter fun p => decide (p.id ∈ s.selectedPages))).getLastD s.pages)) ∧
    (∀ (ocr : Ocr) (pid : String) (s : AppState) (p : Page),
      (s.pages.map Page.id).Nodup →
      s.pages.find? (fun q => q.id = pid) = some p →
      s.isProcessing = false →
      p.status = PageStatus.FAILED →
      List.Chain' stepOk
        [s.pages, retryStart s.pages pid, (retryPageProcessing ocr pid s).pages]) ∧
    (∀ (pid : String) (s : AppState),
      (handleToggleSelectPage pid s).pages = s.pages ∧
      (handleSelectAll s).pages = s.pages) := by
  refine ⟨?_, ?_, ?_, ?_⟩
  · intro ds s p hp
    simp only [handlePdfFile, Bool.not_true, Bool.false_eq_true, if_false, ite_false] at hp
    obtain ⟨d, _, rfl⟩ := List.mem_map.mp hp
    rfl
  · intro ocr s hnd
    have hfnd : ((s.pages.filter fun p =>
        decide (p.id ∈ s.selectedPages)).map Page.id).Nodup :=
      ((List.filter_sublist s.pages).map Page.id).nodup hnd
    have hinj := List.inj_on_of_nodup_map hnd
    constructor
    · apply chain_batchTrace ocr _ _ hfnd
      intro p hp q hq hid
      rw [hinj hq (List.mem_of_mem_filter hp) hid]
    · intro hne
      unfold processSelectedPages
      rw [if_neg hne]
      exact (batchTrace_getLastD ocr _ s.pages).symm
  · intro ocr pid s p hnd hfind hproc hfail
    have hpm : p ∈ s.pages := List.mem_of_find?_eq_some hfind
    have hpid : p.id = pid := by
      have := List.find?_some hfind
      simpa using this
    have hinj := List.inj_on_of_nodup_map hnd
    have hfinal : (retryPageProcessing ocr pid s).pages =
        setOutcome (retryStart s.pages pid) pid (ocr p) := by
      unfold retryPageProcessing
      rw [hfind]
      simp [hproc]
    rw [hfinal]
    have h1 : stepOk s.pages (retryStart s.pages pid) := by
      unfold retryStart
      apply stepOk_updatePage
      intro q hq hid
      have hqp : q = p := hinj hq hpm (hid.trans hpid.symm)
      exact Or.inr (Or.inr (Or.inr (Or.inr ⟨hqp ▸ hfail, rfl⟩)))
    have h2 : stepOk (retryStart s.pages pid)
        (setOutcome (retryStart s.pages pid) pid (ocr p)) := by
      cases ocr p with
      | ok t =>
        unfold setOutcome
        apply stepOk_updatePage
        intro q hq hid
        have hqs : q.status = PageStatus.PROCESSING :=
          status_of_mem_updatePage_processing _ (fun x => rfl) hq hid
        exact Or.inr (Or.inr (Or.inl ⟨hqs, rfl⟩))
      | error m =>
        unfold setOutcome
        apply stepOk_updatePage
        intro q hq hid
        have hqs : q.status = PageStatus.PROCESSING :=
          status_of_mem_updatePage_processing _ (fun x => rfl) hq hid
        exact Or.inr (Or.inr (Or.inr (Or.inl ⟨hqs, rfl⟩)))
    exact List.chain'_cons.mpr ⟨h1, List.chain'_cons.mpr ⟨h2, List.chain'_singleton _⟩⟩
  · intro pid s
    constructor
    · unfold handleToggleSelectPage
      by_cases h : pid ∈ s.selectedPages
      · rw [if_pos h]
      · rw [if_neg h]
    · unfold handleSelectAll
      by_cases h : allProcessableSelected s
      · rw [if_pos h]
      · rw [if_neg h]

theorem status_transitions_allowed_witness :
    (∀ p ∈ (handlePdfFile true (.ok [some dEx]) initialState).pages,
      p.status = PageStatus.PENDING) ∧
    List.Chain' stepOk (failedSelectedState.pages ::
      batchTrace ocrOkEx failedSelectedState.pages
        (failedSelectedState.pages.filter fun p =>
          decide (p.id ∈ failedSelectedState.selectedPages))) ∧
    List.Chain' stepOk [failedSelectedState.pages,
      retryStart failedSelectedState.pages "a",
      (retryPageProcessing ocrOkEx "a" failedSelectedState).pages] :=
  ⟨status_transitions_allowed.1 [some dEx] initialState,
   (status_transitions_allowed.2.1 ocrOkEx failedSelectedState (by decide)).1,
   status_transitions_allowed.2.2.1 ocrOkEx "a" failedSelectedState failedPageEx
     (by decide) (by decide) (by decide) (by decide)⟩

/-! ## The combined text output -/

/-- Under distinct page ids, the `findIndex` scan of src/App.tsx line
196 recovers a page's actual position. -/
theorem findIdx_id_of_nodup :
    ∀ (l : List Page), (l.map Page.id).Nodup →
      ∀ (i : Nat) (p : Page), l[i]? = some p →
        (l.findIdx fun q => q.id = p.id) = i
  | [], _, i, p, h => by simp at h
  | a :: t, hnd, 0, p, h => by
    rw [List.getElem?_cons_zero, Option.some.injEq] at h
    subst h
    rw [List.findIdx_cons]
    simp
  | a :: t, hnd, (i+1), p, h => by
    rw [List.map_cons, List.nodup_cons] at hnd
    obtain ⟨ha, hnd2⟩ := hnd
    rw [List.getElem?_cons_succ] at h
    have hpa : ¬(a.id = p.id) := by
      intro hc
      exact ha (hc ▸ List.mem_map_of_mem Page.id (List.getElem?_mem h))
    rw [List.findIdx_cons]
    simp only [hpa, decide_eq_true_eq, decide_eq_false_iff_not, cond_eq_if,
      decide_eq_true_iff]
    rw [if_neg (by simp [hpa])]
    rw [findIdx_id_of_nodup t hnd2 i p h]

/-- Refutation of the literal output claim: `emptyTextState` (reachable
with an OCR call that returns empty text) holds a COMPLETED page, yet
the combined output is empty — the truthiness test drops a Completed
page whose text is the empty string, so there is no entry for it. -/
theorem combinedText_empty_text_cex :
    (∃ p ∈ emptyTextState.pages, p.status = PageStatus.COMPLETED) ∧
    combinedText emptyTextState.pages = "" ∧
    combinedTextClaim emptyTextState.pages ≠ "" := by
  exact ⟨by decide, by decide, by decide⟩

/-- C7 as amended: under distinct page ids the combined output has one
entry per Completed page with non-empty text — header with the 1-based
original position, then the page's text, in original order, joined by
blank lines; and whenever every Completed page's text is non-empty
(the only case the counterexample excludes) this is exactly the claim's
description with one entry per Completed page. -/
theorem combinedText_matches_spec :
    (∀ (pages : List Page), (pages.map Page.id).Nodup →
      combinedText pages = combinedTextSpec pages) ∧
    (∀ (pages : List Page), (pages.map Page.id).Nodup →
      (∀ p ∈ pages, p.status = PageStatus.COMPLETED → p.text.getD "" ≠ "") →
      combinedText pages = combinedTextClaim pages) := by
  have main : ∀ (pages : List Page), (pages.map Page.id).Nodup →
      combinedText pages = combinedTextSpec pages := by
    intro pages hnd
    unfold combinedText combinedTextSpec
    congr 1
    have h0 : pages = pages.enum.map Prod.snd := (List.enumFrom_map_snd 0 pages).symm
    have h1 : pages.filter completedWithText =
        (pages.enum.filter fun x => completedWithText x.2).map Prod.snd := by
      conv_lhs => rw [h0]
      rw [List.filter_map]
      exact congrArg (List.map Prod.snd) (List.filter_congr fun x _ => rfl)
    rw [h1, List.map_map]
    apply List.map_congr_left
    intro x hx
    have hxe : x ∈ pages.enum := List.mem_of_mem_filter hx
    have hget : pages[x.1]? = some x.2 := List.mem_enum_iff_getElem?.mp hxe
    have hidx : (pages.findIdx fun q => q.id = x.2.id) = x.1 :=
      findIdx_id_of_nodup pages hnd x.1 x.2 hget
    simp only [Function.comp_apply, pageEntry, combinedEntry, hidx]
  refine ⟨main, ?_⟩
  intro pages hnd hne
  rw [main pages hnd]
  unfold combinedTextSpec combinedTextClaim
  congr 1
  congr 1
  apply List.filter_congr
  intro x hx
  have hget : pages[x.1]? = some x.2 := List.mem_enum_iff_getElem?.mp hx
  have hxm : x.2 ∈ pages := List.getElem?_mem hget
  by_cases hc : x.2.status = PageStatus.COMPLETED
  · have hnz := hne x.2 hxm hc
    simp [completedWithText, hc, hnz]
  · simp [completedWithText, hc]

theorem combinedText_matches_spec_witness :
    combinedText completedState.pages = combinedTextSpec completedState.pages ∧
    combinedText completedState.pages = combinedTextClaim completedState.pages :=
  ⟨combinedText_matches_spec.1 completedState.pages (by decide),
   combinedText_matches_spec.2 completedState.pages (by decide) (by decide)⟩

end BanglaOcr
